import Mathlib

/-!
Verification development for the `Linter` decorator of
`coalib/bearlib/abstractions/Linter.py`.

The Python code is shallowly embedded: the options dictionary becomes an
association list of `PyVal`s, compiled regular expressions become an abstract
`Regex` structure (group index plus a match enumerator satisfying the
non-overlap/left-to-right contract of `re.finditer`), raising becomes
`Except PyErr`, and the pieces of the repository that are not part of the
source file under analysis (severity constants, `Result.from_values`, the
diff extractor, the shell-execution primitive) are modelled from the spec.
-/

namespace Coala

/-- Python exceptions that the embedded code can raise.  `valueError` plays
the role the spec calls InterpretationError when it originates from a failed
`int()` conversion of captured text. -/
inductive PyErr where
  | keyError (key : String)
  | valueError (msg : String)
  | typeError (msg : String)
deriving DecidableEq, Repr

/-- A regex match object: span of the match in the subject string plus
`groupdict()`, which maps every named group of the pattern to the captured
text (`Option.none` when the group did not participate in the match). -/
structure Match where
  start : Nat
  stop : Nat
  groupdict : List (String × Option String)
deriving DecidableEq, Repr

/-- Two matches in `finditer` order: the first one ends before the second one
starts (non-overlapping) and starts strictly earlier (left-to-right). -/
def matchOrder (a b : Match) : Prop :=
  a.stop ≤ b.start ∧ a.start < b.start

/-- A compiled pattern, embedding the interface of Python `re` pattern
objects that the source uses: `groupindex` (the declared named groups) and
`finditer`, which enumerates the non-overlapping matches in a subject string
from left to right (that ordering is the documented stdlib contract and is
carried as a proof field). -/
structure Regex where
  groupindex : List String
  finditer : String → List Match
  finditer_chain : ∀ s, List.Chain' matchOrder (finditer s)

/-- Python values as they occur in the options dictionary and in
pre-processed match groups. Dictionaries are modelled with string keys,
which covers every key the source ever uses. -/
inductive PyVal where
  | none
  | bool (b : Bool)
  | int (n : Int)
  | str (s : String)
  | dict (entries : List (String × PyVal))
  | regex (r : Regex)

/-- Dictionary lookup, `d[key]` / `d.get(key)`. -/
def lookupKey : List (String × PyVal) → String → Option PyVal
  | [], _ => Option.none
  | (k, v) :: rest, key => if k = key then some v else lookupKey rest key

/-- Dictionary update, `d[key] = v`: overwrite in place, else append. -/
def setKey : List (String × PyVal) → String → PyVal → List (String × PyVal)
  | [], key, v => [(key, v)]
  | (k, w) :: rest, key, v =>
      if k = key then (k, v) :: rest else (k, w) :: setKey rest key v

/-- `key in d`. -/
def hasKey (d : List (String × PyVal)) (key : String) : Bool :=
  (lookupKey d key).isSome

/-- The keys of a dictionary, in insertion order. -/
def keysOf (d : List (String × PyVal)) : List String := d.map Prod.fst

/-- Python `repr` of a string (quoting). -/
def pyRepr (s : String) : String := "\x27" ++ s ++ "\x27"

/-- Modelled from the spec: the severity enumeration
`coalib.results.RESULT_SEVERITY` (module not under src/); the spec fixes the
three levels MAJOR, NORMAL, INFO and the code coerces severities with
`int()`, so they are embedded as the integers 0, 1, 2 in declaration
order. -/
def RESULT_SEVERITY.INFO : Int := 0

/-- Modelled from the spec: NORMAL severity level. -/
def RESULT_SEVERITY.NORMAL : Int := 1

/-- Modelled from the spec: MAJOR severity level. -/
def RESULT_SEVERITY.MAJOR : Int := 2

/-- Modelled from the spec: the keys of `RESULT_SEVERITY.reverse`, the
reverse mapping from severity value to name. -/
def RESULT_SEVERITY.reverse : List Int := [0, 1, 2]

/-- Tail of a Python integer literal body: digits with single underscores
allowed between digits. -/
def digitsTail : List Char → Bool
  | [] => true
  | [c] => c.isDigit
  | c :: d :: rest =>
      if c.isDigit then digitsTail (d :: rest)
      else if c = '_' then d.isDigit && digitsTail (d :: rest)
      else false

/-- A non-empty digit sequence (with underscore separators) as accepted by
Python `int()`. -/
def pyIntDigits : List Char → Bool
  | [] => false
  | c :: rest => c.isDigit && digitsTail rest

/-- Numeric value of a digit sequence, skipping underscores. -/
def natOfDigits (cs : List Char) : Nat :=
  cs.foldl (fun acc c => if c = '_' then acc else acc * 10 + (c.toNat - 48)) 0

/-- Strip leading and trailing whitespace from a character list (the
stripping `int()` performs on its string argument). -/
def stripChars (cs : List Char) : List Char :=
  ((cs.dropWhile Char.isWhitespace).reverse.dropWhile Char.isWhitespace).reverse

/-- Python `int(s)` on a string: strip surrounding whitespace, optional
sign, then a digit body; `Option.none` models the `ValueError` raise. -/
def pyInt (s : String) : Option Int :=
  match stripChars s.toList with
  | '+' :: rest =>
      if pyIntDigits rest then some (Int.ofNat (natOfDigits rest)) else Option.none
  | '-' :: rest =>
      if pyIntDigits rest then some (-(Int.ofNat (natOfDigits rest))) else Option.none
  | t => if pyIntDigits t then some (Int.ofNat (natOfDigits t)) else Option.none

/-- Python truthiness of the embedded values. -/
def pyTruthy : PyVal → Bool
  | PyVal.none => false
  | PyVal.bool b => b
  | PyVal.int n => n ≠ 0
  | PyVal.str s => s ≠ ""
  | PyVal.dict d => !d.isEmpty
  | PyVal.regex _ => true

/-- Python `int(x)` on an arbitrary value. -/
def pyIntOf : PyVal → Except PyErr Int
  | PyVal.int n => Except.ok n
  | PyVal.bool b => Except.ok (if b then 1 else 0)
  | PyVal.str s =>
      match pyInt s with
      | some n => Except.ok n
      | Option.none =>
          Except.error (PyErr.valueError
            ("invalid literal for int() with base 10: " ++ pyRepr s))
  | PyVal.none => Except.error (PyErr.typeError "int() argument is None")
  | PyVal.dict _ => Except.error (PyErr.typeError "int() argument is a dict")
  | PyVal.regex _ => Except.error (PyErr.typeError "int() argument is a pattern")

/-- Python `str(x)` for the values that reach it in the source. -/
def pyStr : PyVal → String
  | PyVal.none => "None"
  | PyVal.bool b => if b then "True" else "False"
  | PyVal.int n => toString n
  | PyVal.str s => s
  | PyVal.dict _ => "{...}"
  | PyVal.regex _ => "re.compile(...)"

/-- The base allowed option keys of the `Linter` decorator (source lines
148-152). -/
def baseAllowed : List String :=
  ["executable", "provides_correction", "use_stdin", "use_stderr",
   "config_suffix"]

/-- The default severity map installed when the pattern declares a
`severity` group and the user supplied none (source lines 183-186). -/
def defaultSeverityMap : PyVal :=
  PyVal.dict [("error", PyVal.int RESULT_SEVERITY.MAJOR),
              ("warning", PyVal.int RESULT_SEVERITY.NORMAL),
              ("info", PyVal.int RESULT_SEVERITY.INFO)]

/-- The option keys that are not in the allowed set, one occurrence each, in
first-appearance order (embedding of `options.keys() - allowed_options`;
`set.pop()` is modelled as taking the head of this list). -/
def superfluousKeys (d : List (String × PyVal)) (allowed : List String) :
    List String :=
  ((keysOf d).filter (fun k => !(allowed.contains k))).dedup

/-- The `Linter` decorator's construction-time validation (source lines
142-194).  `compile` embeds `re.compile`; the result is the validated
options dictionary that the generated bear class closes over.  Note that
line 146 of the source reads `options["config_suffix"] = use_stderr`, which
is transcribed literally here. -/
def Linter (compile : String → Regex) (executable : String)
    (provides_correction : Bool) (use_stdin : Bool) (use_stderr : Bool)
    (config_suffix : String) (kwargs : List (String × PyVal)) :
    Except PyErr (List (String × PyVal)) := do
  let options := setKey kwargs "executable" (PyVal.str executable)
  let options := setKey options "provides_correction" (PyVal.bool provides_correction)
  let options := setKey options "use_stdin" (PyVal.bool use_stdin)
  let options := setKey options "use_stderr" (PyVal.bool use_stderr)
  let options := setKey options "config_suffix" (PyVal.bool use_stderr)
  let pair ←
    if provides_correction then do
      let options ←
        match lookupKey options "diff_severity" with
        | Option.none =>
            pure (setKey options "diff_severity" (PyVal.int RESULT_SEVERITY.NORMAL))
        | some v =>
            match v with
            | PyVal.int n =>
                if RESULT_SEVERITY.reverse.contains n then pure options
                else Except.error (PyErr.typeError "Invalid value for diff_severity")
            | _ => Except.error (PyErr.typeError "Invalid value for diff_severity")
      let options ←
        match lookupKey options "diff_message" with
        | Option.none =>
            pure (setKey options "diff_message" (PyVal.str "Inconsistency found."))
        | some v =>
            match v with
            | PyVal.str _ => pure options
            | _ => Except.error (PyErr.typeError "diff_message must be a string")
      pure (options, baseAllowed ++ ["diff_severity", "diff_message"])
    else do
      let compiled ←
        match lookupKey options "output_regex" with
        | Option.none => Except.error (PyErr.valueError "No output_regex specified.")
        | some (PyVal.str p) => pure (compile p)
        | some (PyVal.regex r) => pure r
        | some _ =>
            Except.error (PyErr.typeError
              "first argument must be string or compiled pattern")
      let options := setKey options "output_regex" (PyVal.regex compiled)
      let options ←
        if hasKey options "severity_map" then
          if !(compiled.groupindex.contains "severity") then
            Except.error (PyErr.valueError
              ("Provided severity_map but named group severity " ++
               "is not used in output_regex."))
          else
            match lookupKey options "severity_map" with
            | some (PyVal.dict _) => pure options
            | _ => Except.error (PyErr.typeError "severity_map must be a dict")
        else
          if compiled.groupindex.contains "severity" then
            pure (setKey options "severity_map" defaultSeverityMap)
          else
            pure options
      pure (options, baseAllowed ++ ["output_regex", "severity_map"])
  match superfluousKeys pair.1 pair.2 with
  | [] => pure pair.1
  | k :: _ =>
      Except.error (PyErr.valueError
        ("Invalid keyword argument " ++ pyRepr k ++ " provided."))

/-- Modelled from the spec: one edit hunk of the diff extractor — the span
of original-file lines it covers (1-based start, number of covered lines)
and the replacement lines taken from the corrected output (§4.5). -/
structure Hunk where
  start : Nat
  delCount : Nat
  repl : List String
deriving DecidableEq, Repr

/-- The origin of a result: either the bear instance itself (`self`) or a
value taken from the pre-processed groups. -/
inductive OriginV where
  | self
  | val (v : PyVal)

/-- Modelled from the spec: the diagnostic record built by
`Result.from_values` / `Result` (module not under src/), shaped after the
external diagnostic shape of §6 with the attached patch of diff mode. -/
structure Result where
  origin : OriginV
  message : PyVal
  file : String
  severity : PyVal
  line : PyVal
  column : PyVal
  end_line : PyVal
  end_column : PyVal
  diffs : Option Hunk

/-- `match.groupdict()` values lifted into `PyVal` (captured text or
`None`). -/
def pyGroupVal : Option String → PyVal
  | Option.none => PyVal.none
  | some s => PyVal.str s

/-- The `groups` dictionary at the start of
`_convert_output_regex_match_to_result` (source line 268). -/
def groupsOf (m : Match) : List (String × PyVal) :=
  m.groupdict.map (fun kv => (kv.1, pyGroupVal kv.2))

/-- `x in d` for a string-keyed dictionary: only string values can be
present among the keys. -/
def mapContains (entries : List (String × PyVal)) : PyVal → Bool
  | PyVal.str s => (lookupKey entries s).isSome
  | _ => false

/-- The tuple iterated by the numeric-coercion loop (source line 276). -/
def numericKeys : List String := ["line", "column", "end_line", "end_column"]

/-- The numeric-coercion loop of source lines 276-278: for each key in
order, a present and truthy value is replaced by its `int()` conversion,
whose failure aborts the conversion. -/
def intLoop : List String → List (String × PyVal) →
    Except PyErr (List (String × PyVal))
  | [], gs => Except.ok gs
  | k :: ks, gs =>
      match lookupKey gs k with
      | some v =>
          if pyTruthy v then
            match pyIntOf v with
            | Except.ok n => intLoop ks (setKey gs k (PyVal.int n))
            | Except.error e => Except.error e
          else intLoop ks gs
      | Option.none => intLoop ks gs

/-- Modelled from the spec: `Result.from_values` (module not under src/) as
called at source lines 289-298, packaging the pre-processed groups into a
diagnostic per the shape of §6; Python evaluates `int(...)` for the
severity argument, which is the only failing step. -/
def resultFromValues (groups : List (String × PyVal)) (filename : String) :
    Except PyErr Result := do
  let sev ← pyIntOf ((lookupKey groups "severity").getD
                       (PyVal.int RESULT_SEVERITY.NORMAL))
  pure { origin := (match lookupKey groups "origin" with
                    | some v => OriginV.val v
                    | Option.none => OriginV.self),
         message := (lookupKey groups "message").getD (PyVal.str ""),
         file := filename,
         severity := PyVal.int sev,
         line := (lookupKey groups "line").getD PyVal.none,
         column := (lookupKey groups "column").getD PyVal.none,
         end_line := (lookupKey groups "end_line").getD PyVal.none,
         end_column := (lookupKey groups "end_column").getD PyVal.none,
         diffs := Option.none }

/-- Source lines 269-274: when the fetched `severity_map` is a dict, the
`severity` group captured a string, and that string is a key of the map,
replace the group's value by the mapped one; otherwise leave the groups
unchanged. -/
def sevStep (sv : PyVal) (groups : List (String × PyVal)) :
    List (String × PyVal) :=
  match sv, lookupKey groups "severity" with
  | PyVal.dict entries, some (PyVal.str s) =>
      (match lookupKey entries s with
       | some mapped => setKey groups "severity" mapped
       | Option.none => groups)
  | _, _ => groups

/-- Source lines 280-283: a declared `origin` group (participating or not)
is reformatted as `"<bear-name> (<str of captured value>)"`. -/
def originStep (bearName : String) (groups : List (String × PyVal)) :
    List (String × PyVal) :=
  match lookupKey groups "origin" with
  | some ov =>
      setKey groups "origin" (PyVal.str (bearName ++ " (" ++ pyStr ov ++ ")"))
  | Option.none => groups

/-- `Linter._convert_output_regex_match_to_result` (source lines 259-298).
Note that line 270 subscripts `options["severity_map"]` unconditionally
before the `isinstance` test, so a missing key raises `KeyError`. -/
def convert (options : List (String × PyVal)) (bearName : String)
    (m : Match) (filename : String) : Except PyErr Result := do
  let sv ←
    match lookupKey options "severity_map" with
    | some v => pure v
    | Option.none => Except.error (PyErr.keyError "severity_map")
  let groups ← intLoop numericKeys (sevStep sv (groupsOf m))
  resultFromValues (originStep bearName groups) filename

/-- The pattern-mode `_process_output` loop body (source lines 311-314):
convert every match in order; the generator aborts at the first raising
conversion. -/
def convertAll (options : List (String × PyVal)) (bearName : String)
    (ms : List Match) (filename : String) : Except PyErr (List Result) :=
  match ms with
  | [] => Except.ok []
  | m :: rest => do
      let r ← convert options bearName m filename
      let rs ← convertAll options bearName rest filename
      pure (r :: rs)

/-- Modelled from the spec: `str.splitlines(keepends=True)` as used at
source line 304, splitting the corrected output into lines that keep their
terminating newline. -/
def splitLinesKeepAux : List Char → List Char → List String
  | [], [] => []
  | [], acc => [String.mk acc.reverse]
  | c :: rest, acc =>
      if c = '\n' then String.mk (c :: acc).reverse :: splitLinesKeepAux rest []
      else splitLinesKeepAux rest (c :: acc)

/-- Modelled from the spec: split a text into its lines, keeping the
newline terminators. -/
def splitLinesKeep (s : String) : List String :=
  splitLinesKeepAux s.toList []

/-- Modelled from the spec: one step of the line-level structural diff of
§4.5 — a line kept unchanged, deleted from the original, or inserted from
the corrected output. -/
inductive DiffOp where
  | keep (l : String)
  | del (l : String)
  | ins (l : String)
deriving DecidableEq, Repr

/-- The number of changed (non-keep) steps of an edit script. -/
def changedCount (ops : List DiffOp) : Nat :=
  ops.countP (fun op => match op with | DiffOp.keep _ => false | _ => true)

/-- Modelled from the spec: the line-level structural diff of §4.5
(`Diff.from_string_arrays`, module not under src/), computed as a
common-subsequence edit script that minimises the number of changed
lines. -/
def lcsDiff : List String → List String → List DiffOp
  | [], bs => bs.map DiffOp.ins
  | a :: as, [] => DiffOp.del a :: lcsDiff as []
  | a :: as, b :: bs =>
      if a = b then DiffOp.keep a :: lcsDiff as bs
      else
        let d1 := DiffOp.del a :: lcsDiff as (b :: bs)
        let d2 := DiffOp.ins b :: lcsDiff (a :: as) bs
        if changedCount d1 ≤ changedCount d2 then d1 else d2
termination_by as bs => as.length + bs.length
decreasing_by all_goals simp_arith

/-- The original-file lines an edit script consumes. -/
def scriptSource (ops : List DiffOp) : List String :=
  ops.filterMap (fun op =>
    match op with
    | DiffOp.keep l => some l
    | DiffOp.del l => some l
    | DiffOp.ins _ => Option.none)

/-- The corrected-output lines an edit script produces. -/
def scriptTarget (ops : List DiffOp) : List String :=
  ops.filterMap (fun op =>
    match op with
    | DiffOp.keep l => some l
    | DiffOp.ins l => some l
    | DiffOp.del _ => Option.none)

/-- Whether a diff step changes the file. -/
def isChange : DiffOp → Bool
  | DiffOp.keep _ => false
  | _ => true

/-- The inserted lines of a script fragment, in order. -/
def insLines (ops : List DiffOp) : List String :=
  ops.filterMap (fun op =>
    match op with
    | DiffOp.ins l => some l
    | _ => Option.none)

/-- The number of deleted lines of a script fragment. -/
def delCountOf (ops : List DiffOp) : Nat :=
  ops.countP (fun op => match op with | DiffOp.del _ => true | _ => false)

theorem length_dropWhile_le {α : Type} (p : α → Bool) (l : List α) :
    (l.dropWhile p).length ≤ l.length := by
  induction l with
  | nil => simp [List.dropWhile]
  | cons a l ih =>
      by_cases h : p a <;> simp [List.dropWhile, h] <;> omega

/-- Modelled from the spec: `Diff.split_diff` (module not under src/) as
described in §4.5 — partition the edit script into maximal hunks of
consecutive changed lines, each anchored at its 1-based original-file line
and carrying the inserted lines as replacement. `pos` is the original-file
line number of the next script step. -/
def splitDiff (pos : Nat) : List DiffOp → List Hunk
  | [] => []
  | DiffOp.keep _ :: rest => splitDiff (pos + 1) rest
  | DiffOp.del a :: rest =>
      let run := rest.takeWhile isChange
      { start := pos,
        delCount := 1 + delCountOf run,
        repl := insLines run } ::
        splitDiff (pos + 1 + delCountOf run) (rest.dropWhile isChange)
  | DiffOp.ins b :: rest =>
      let run := rest.takeWhile isChange
      { start := pos,
        delCount := delCountOf run,
        repl := b :: insLines run } ::
        splitDiff (pos + delCountOf run) (rest.dropWhile isChange)
termination_by ops => ops.length
decreasing_by
  all_goals simp_arith
  all_goals exact length_dropWhile_le _ _

/-- Modelled from the spec: sequential application of the emitted patches
in range order (§8): `pos` is the original-file line number of the first
line of `lines`; each hunk replaces the original lines it covers by its
replacement lines. -/
def applyHunks : List Hunk → Nat → List String → List String
  | [], _, lines => lines
  | h :: hs, pos, lines =>
      List.take (h.start - pos) lines ++ h.repl ++
        applyHunks hs (h.start + h.delCount)
          (List.drop ((h.start - pos) + h.delCount) lines)

/-- The diff-mode `_process_output` (source lines 300-309): one result per
hunk of the split diff between the file and the corrected output, with the
configured uniform message and severity and the hunk attached as its
patch. -/
def diffResults (options : List (String × PyVal)) (output : String)
    (file : List String) (filename : String) : List Result :=
  (splitDiff 1 (lcsDiff file (splitLinesKeep output))).map (fun h =>
    { origin := OriginV.self,
      message := (lookupKey options "diff_message").getD PyVal.none,
      file := filename,
      severity := (lookupKey options "diff_severity").getD PyVal.none,
      line := PyVal.none,
      column := PyVal.none,
      end_line := PyVal.none,
      end_column := PyVal.none,
      diffs := some h })

/-- `_process_output` as selected at class-creation time (source lines
300-314): the diff extractor when `provides_correction` is set, else the
pattern extractor over `output_regex.finditer`. -/
def processOutput (options : List (String × PyVal)) (bearName : String)
    (output : String) (filename : String) (file : List String) :
    Except PyErr (List Result) :=
  match lookupKey options "provides_correction" with
  | some (PyVal.bool true) => Except.ok (diffResults options output file filename)
  | _ =>
      match lookupKey options "output_regex" with
      | some (PyVal.regex r) => convertAll options bearName (r.finditer output) filename
      | _ => Except.error (PyErr.keyError "output_regex")

/-- `_grab_output` as selected at class-creation time (source lines
316-323). -/
def grabOutput (options : List (String × PyVal))
    (stdout stderr : String) : String :=
  match lookupKey options "use_stderr" with
  | some (PyVal.bool true) => stderr
  | _ => stdout

/-- Modelled from the spec: the outcome of one execution of the external
tool.  The command-execution primitive of §6 hands the source only the
captured `(stdout, stderr)` pair; the exit status is carried here so that
theorems can state that it is never inspected. -/
structure ExecResult where
  stdout : String
  stderr : String
  exitcode : Int

/-- `Linter.run` (source lines 358-369) given the outcome of the external
command: select the output stream and hand it to the chosen extractor. -/
def runBear (options : List (String × PyVal)) (bearName : String)
    (filename : String) (file : List String) (er : ExecResult) :
    Except PyErr (List Result) :=
  processOutput options bearName (grabOutput options er.stdout er.stderr)
    filename file

/-- The temporary-config suffix used by `_create_config` (source line 352):
`tmp_suffix = options["config_suffix"]`. -/
def tmpSuffix (options : List (String × PyVal)) : Option PyVal :=
  lookupKey options "config_suffix"

theorem lookup_setKey_self (d : List (String × PyVal)) (k : String) (v : PyVal) :
    lookupKey (setKey d k v) k = some v := by
  induction d with
  | nil => simp [setKey, lookupKey]
  | cons kv rest ih =>
      by_cases h : kv.1 = k <;> simp [setKey, lookupKey, h, ih]

theorem lookup_setKey_ne (d : List (String × PyVal)) (k k' : String) (v : PyVal)
    (h : k' ≠ k) : lookupKey (setKey d k v) k' = lookupKey d k' := by
  have h2 : ¬(k = k') := fun hc => h hc.symm
  induction d with
  | nil => simp [setKey, lookupKey, h2]
  | cons kv rest ih =>
      by_cases hk : kv.1 = k
      · simp [setKey, lookupKey, hk, h2]
      · by_cases hk' : kv.1 = k' <;> simp [setKey, lookupKey, hk, hk', ih, h]

/-- A value that can appear in a raw `groupdict`: captured text or
`None`. -/
def isStrOrNone (v : PyVal) : Prop :=
  (∃ s, v = PyVal.str s) ∨ v = PyVal.none

theorem lookup_map_groupdict (l : List (String × Option String)) (k : String)
    (v : PyVal)
    (h : lookupKey (l.map (fun kv => (kv.1, pyGroupVal kv.2))) k = some v) :
    isStrOrNone v := by
  induction l with
  | nil => simp [lookupKey] at h
  | cons kv rest ih =>
      by_cases hk : kv.1 = k
      · simp [lookupKey, hk] at h
        cases hv : kv.2 with
        | none => right; rw [← h, hv]; rfl
        | some s => left; exact ⟨s, by rw [← h, hv]; rfl⟩
      · simp [lookupKey, hk] at h
        exact ih h

theorem groupsOf_val (m : Match) (k : String) (v : PyVal)
    (h : lookupKey (groupsOf m) k = some v) : isStrOrNone v :=
  lookup_map_groupdict m.groupdict k v h

theorem sevStep_lookup_ne (sv : PyVal) (gs : List (String × PyVal))
    (k : String) (h : k ≠ "severity") :
    lookupKey (sevStep sv gs) k = lookupKey gs k := by
  unfold sevStep
  split
  · split
    · exact lookup_setKey_ne _ _ _ _ h
    · rfl
  · rfl

theorem sevStep_mapped (entries gs : List (String × PyVal)) (s : String)
    (mv : PyVal) (hg : lookupKey gs "severity" = some (PyVal.str s))
    (hm : lookupKey entries s = some mv) :
    sevStep (PyVal.dict entries) gs = setKey gs "severity" mv := by
  unfold sevStep
  rw [hg]
  dsimp only
  rw [hm]

theorem sevStep_unmapped (entries gs : List (String × PyVal)) (s : String)
    (hg : lookupKey gs "severity" = some (PyVal.str s))
    (hm : lookupKey entries s = Option.none) :
    sevStep (PyVal.dict entries) gs = gs := by
  unfold sevStep
  rw [hg]
  dsimp only
  rw [hm]

theorem originStep_lookup_ne (b : String) (gs : List (String × PyVal))
    (k : String) (h : k ≠ "origin") :
    lookupKey (originStep b gs) k = lookupKey gs k := by
  unfold originStep
  split
  · exact lookup_setKey_ne _ _ _ _ h
  · rfl

theorem originStep_lookup_origin (b : String) (gs : List (String × PyVal))
    (ov : PyVal) (h : lookupKey gs "origin" = some ov) :
    lookupKey (originStep b gs) "origin" =
      some (PyVal.str (b ++ " (" ++ pyStr ov ++ ")")) := by
  unfold originStep
  rw [h]
  exact lookup_setKey_self _ _ _

theorem intLoop_preserves (ks : List String) (gs gs' : List (String × PyVal))
    (h : intLoop ks gs = Except.ok gs') (k : String) (hk : k ∉ ks) :
    lookupKey gs' k = lookupKey gs k := by
  induction ks generalizing gs with
  | nil =>
      simp only [intLoop] at h
      cases h
      rfl
  | cons k0 ks ih =>
      have hk0 : k ≠ k0 := fun hc => hk (hc ▸ List.mem_cons_self k0 ks)
      have hks : k ∉ ks := fun hc => hk (List.mem_cons_of_mem k0 hc)
      simp only [intLoop] at h
      cases hl : lookupKey gs k0 with
      | none =>
          rw [hl] at h
          exact ih gs h hks
      | some v =>
          rw [hl] at h
          dsimp only at h
          by_cases ht : pyTruthy v
          · rw [if_pos ht] at h
            cases hi : pyIntOf v with
            | ok n =>
                rw [hi] at h
                rw [ih _ h hks]
                exact lookup_setKey_ne _ _ _ _ hk0
            | error e =>
                rw [hi] at h
                cases h
          · rw [if_neg ht] at h
            exact ih gs h hks

theorem intLoop_error_valueError (ks : List String) (gs : List (String × PyVal))
    (hnd : ks.Nodup)
    (Hv : ∀ k v, k ∈ ks → lookupKey gs k = some v → isStrOrNone v)
    (e : PyErr) (h : intLoop ks gs = Except.error e) :
    ∃ msg, e = PyErr.valueError msg := by
  induction ks generalizing gs with
  | nil =>
      simp only [intLoop] at h
      exact Except.noConfusion h
  | cons k0 ks ih =>
      simp only [intLoop] at h
      cases hl : lookupKey gs k0 with
      | none =>
          rw [hl] at h
          exact ih gs (List.Nodup.of_cons hnd)
            (fun k v hm => Hv k v (List.mem_cons_of_mem k0 hm)) h
      | some v =>
          rw [hl] at h
          dsimp only at h
          have hv := Hv k0 v (List.mem_cons_self k0 ks) hl
          by_cases ht : pyTruthy v
          · rw [if_pos ht] at h
            cases hi : pyIntOf v with
            | ok n =>
                rw [hi] at h
                refine ih _ (List.Nodup.of_cons hnd) ?_ h
                intro k w hm hw
                have hkne : k ≠ k0 := by
                  intro hc
                  exact (List.nodup_cons.mp hnd).1 (hc ▸ hm)
                rw [lookup_setKey_ne _ _ _ _ hkne] at hw
                exact Hv k w (List.mem_cons_of_mem k0 hm) hw
            | error e0 =>
                rw [hi] at h
                cases h
                rcases hv with ⟨s, rfl⟩ | rfl
                · simp only [pyIntOf] at hi
                  cases hp : pyInt s with
                  | none =>
                      rw [hp] at hi
                      exact ⟨_, (Except.error.inj hi).symm⟩
                  | some n =>
                      rw [hp] at hi
                      cases hi
                · cases ht
          · rw [if_neg ht] at h
            exact ih gs (List.Nodup.of_cons hnd)
              (fun k w hm => Hv k w (List.mem_cons_of_mem k0 hm)) h

theorem intLoop_fails (ks : List String) (gs : List (String × PyVal))
    (hnd : ks.Nodup)
    (Hv : ∀ k v, k ∈ ks → lookupKey gs k = some v → isStrOrNone v)
    (k : String) (hk : k ∈ ks) (s : String)
    (hgv : lookupKey gs k = some (PyVal.str s)) (hne : s ≠ "")
    (hni : pyInt s = Option.none) :
    ∃ msg, intLoop ks gs = Except.error (PyErr.valueError msg) := by
  induction ks generalizing gs with
  | nil => cases hk
  | cons k0 ks ih =>
      simp only [intLoop]
      by_cases hk0 : k0 = k
      · subst hk0
        rw [hgv]
        dsimp only
        have ht : pyTruthy (PyVal.str s) = true := by
          simp [pyTruthy, hne]
        rw [if_pos ht]
        have hpi : pyIntOf (PyVal.str s) =
            Except.error (PyErr.valueError
              ("invalid literal for int() with base 10: " ++ pyRepr s)) := by
          simp only [pyIntOf, hni]
        rw [hpi]
        exact ⟨_, rfl⟩
      · have hks : k ∈ ks := by
          rcases List.mem_cons.mp hk with hc | hc
          · exact absurd hc.symm hk0
          · exact hc
        cases hl : lookupKey gs k0 with
        | none =>
            exact ih gs (List.Nodup.of_cons hnd)
              (fun k' w hm => Hv k' w (List.mem_cons_of_mem k0 hm)) hks hgv
        | some v =>
            dsimp only
            have hv := Hv k0 v (List.mem_cons_self k0 ks) hl
            by_cases ht : pyTruthy v
            · rw [if_pos ht]
              cases hi : pyIntOf v with
              | ok n =>
                  refine ih _ (List.Nodup.of_cons hnd) ?_ hks ?_
                  · intro k' w hm hw
                    have hkne : k' ≠ k0 := by
                      intro hc
                      exact (List.nodup_cons.mp hnd).1 (hc ▸ hm)
                    rw [lookup_setKey_ne _ _ _ _ hkne] at hw
                    exact Hv k' w (List.mem_cons_of_mem k0 hm) hw
                  · rw [lookup_setKey_ne _ _ _ _ (fun hc => hk0 hc.symm)]
                    exact hgv
              | error e0 =>
                  dsimp only
                  rcases hv with ⟨s0, rfl⟩ | rfl
                  · simp only [pyIntOf] at hi
                    cases hp : pyInt s0 with
                    | none =>
                        rw [hp] at hi
                        exact ⟨_, congrArg Except.error (Except.error.inj hi).symm⟩
                    | some n =>
                        rw [hp] at hi
                        cases hi
                  · cases ht
            · rw [if_neg ht]
              exact ih gs (List.Nodup.of_cons hnd)
                (fun k' w hm => Hv k' w (List.mem_cons_of_mem k0 hm)) hks hgv

theorem convert_with_map (opts : List (String × PyVal)) (sv : PyVal)
    (bearName : String) (m : Match) (filename : String)
    (hsm : lookupKey opts "severity_map" = some sv) :
    convert opts bearName m filename =
      Except.bind (intLoop numericKeys (sevStep sv (groupsOf m)))
        (fun groups => resultFromValues (originStep bearName groups) filename) := by
  unfold convert
  rw [hsm]
  rfl

/-- C9: a pattern-mode match in which one of the four numeric groups
captured non-empty text that is not a valid integer makes the conversion of
that match raise (a `ValueError` from `int()`, the spec's
InterpretationError); the severity map being present keeps the earlier
lines of the conversion from raising first. -/
theorem numeric_group_interpretation_error :
    ∀ (opts : List (String × PyVal)) (sv : PyVal) (bearName : String)
      (m : Match) (filename k s : String),
      lookupKey opts "severity_map" = some sv →
      k ∈ numericKeys →
      lookupKey (groupsOf m) k = some (PyVal.str s) →
      s ≠ "" →
      pyInt s = Option.none →
      ∃ msg, convert opts bearName m filename =
        Except.error (PyErr.valueError msg) := by
  intro opts sv bearName m filename k s hsm hk hgv hne hni
  have hkne : k ≠ "severity" := by
    intro hc
    subst hc
    exact absurd hk (by decide)
  have hg2 : lookupKey (sevStep sv (groupsOf m)) k = some (PyVal.str s) := by
    rw [sevStep_lookup_ne sv _ k hkne]
    exact hgv
  have Hv : ∀ k' w, k' ∈ numericKeys →
      lookupKey (sevStep sv (groupsOf m)) k' = some w → isStrOrNone w := by
    intro k' w hk' hw
    have hk'ne : k' ≠ "severity" := by fin_cases hk' <;> decide
    rw [sevStep_lookup_ne sv _ k' hk'ne] at hw
    exact groupsOf_val m k' w hw
  obtain ⟨msg, hmsg⟩ :=
    intLoop_fails numericKeys (sevStep sv (groupsOf m)) (by decide) Hv k hk s
      hg2 hne hni
  refine ⟨msg, ?_⟩
  rw [convert_with_map opts sv bearName m filename hsm, hmsg]
  rfl

theorem numeric_group_interpretation_error_witness :
    lookupKey [("severity_map", PyVal.dict [])] "severity_map" =
        some (PyVal.dict []) ∧
    "line" ∈ numericKeys ∧
    pyInt "3a" = Option.none ∧
    ∃ msg, convert [("severity_map", PyVal.dict [])] "B"
        ⟨0, 2, [("line", some "3a")]⟩ "f" =
      Except.error (PyErr.valueError msg) :=
  ⟨rfl, by decide, by decide,
   numeric_group_interpretation_error [("severity_map", PyVal.dict [])]
     (PyVal.dict []) "B" ⟨0, 2, [("line", some "3a")]⟩ "f"
     "line" "3a" rfl (by decide) rfl (by decide) (by decide)⟩

/-- C10: a declared `origin` group that does not participate in a match
(`groupdict` holds `None`) makes the diagnostic's origin the string
`"<adapter-name> (None)"` (source lines 280-283 format the raw `None`),
not the adapter name alone. -/
theorem origin_none_formatted :
    ∀ (opts : List (String × PyVal)) (sv : PyVal) (bearName : String)
      (m : Match) (filename : String) (res : Result),
      lookupKey opts "severity_map" = some sv →
      lookupKey (groupsOf m) "origin" = some PyVal.none →
      convert opts bearName m filename = Except.ok res →
      res.origin = OriginV.val (PyVal.str (bearName ++ " (None)")) := by
  intro opts sv bearName m filename res hsm hor hok
  rw [convert_with_map opts sv bearName m filename hsm] at hok
  cases hIL : intLoop numericKeys (sevStep sv (groupsOf m)) with
  | error e =>
      rw [hIL] at hok
      exact Except.noConfusion hok
  | ok gs2 =>
      rw [hIL] at hok
      dsimp only [Except.bind] at hok
      have hor2 : lookupKey gs2 "origin" = some PyVal.none := by
        rw [intLoop_preserves numericKeys _ gs2 hIL "origin" (by decide),
            sevStep_lookup_ne sv _ "origin" (by decide)]
        exact hor
      have hor3 := originStep_lookup_origin bearName gs2 PyVal.none hor2
      unfold resultFromValues at hok
      cases hsv : pyIntOf ((lookupKey (originStep bearName gs2)
          "severity").getD (PyVal.int RESULT_SEVERITY.NORMAL)) with
      | error e =>
          rw [hsv] at hok
          exact Except.noConfusion hok
      | ok sev =>
          rw [hsv] at hok
          cases hok
          show (match lookupKey (originStep bearName gs2) "origin" with
                | some v => OriginV.val v
                | Option.none => OriginV.self) = _
          rw [hor3]
          dsimp only [pyStr]
          rw [String.append_assoc, String.append_assoc]
          rfl

theorem origin_none_formatted_witness :
    lookupKey (groupsOf ⟨0, 0, [("origin", Option.none)]⟩) "origin" =
      some PyVal.none ∧
    ((convert [("severity_map", PyVal.dict [])] "XLintBear"
        ⟨0, 0, [("origin", Option.none)]⟩ "f" =
      Except.ok ⟨OriginV.val (PyVal.str "XLintBear (None)"), PyVal.str "",
                 "f", PyVal.int 1, PyVal.none, PyVal.none, PyVal.none,
                 PyVal.none, Option.none⟩) ∧
     OriginV.val (PyVal.str "XLintBear (None)") =
       OriginV.val (PyVal.str ("XLintBear" ++ " (None)"))) :=
  ⟨rfl,
   ⟨rfl,
    by
      rw [← origin_none_formatted [("severity_map", PyVal.dict [])]
            (PyVal.dict []) "XLintBear" ⟨0, 0, [("origin", Option.none)]⟩ "f"
            ⟨OriginV.val (PyVal.str "XLintBear (None)"), PyVal.str "", "f",
             PyVal.int 1, PyVal.none, PyVal.none, PyVal.none, PyVal.none,
             Option.none⟩
            rfl rfl rfl]⟩⟩

/-- C2 counterexample: with the severity map `{error: MAJOR}` and a match
that captured the label `warning`, which is absent from the map, the
conversion raises a `ValueError` from `int("warning")` instead of
producing a NORMAL-severity diagnostic. -/
theorem unmapped_severity_not_normal :
    convert [("severity_map", PyVal.dict [("error", PyVal.int 2)])] "B"
        ⟨0, 1, [("severity", some "warning")]⟩ "f" =
      Except.error (PyErr.valueError
        ("invalid literal for int() with base 10: " ++ pyRepr "warning")) :=
  rfl

/-- C2 (amended): with a configured severity map, a captured label that is
a key of the map resolves to exactly the mapped value; a captured label
absent from the map is not replaced and is handed to `int()` by
`Result.from_values`, so a non-numeric unmapped label makes the conversion
raise a `ValueError` — there is no NORMAL fallback for unmapped labels. -/
theorem severity_map_resolution :
    (∀ (opts sm : List (String × PyVal)) (bearName : String) (m : Match)
       (filename s : String) (v : Int) (res : Result),
       lookupKey opts "severity_map" = some (PyVal.dict sm) →
       lookupKey (groupsOf m) "severity" = some (PyVal.str s) →
       lookupKey sm s = some (PyVal.int v) →
       convert opts bearName m filename = Except.ok res →
       res.severity = PyVal.int v) ∧
    (∀ (opts sm : List (String × PyVal)) (bearName : String) (m : Match)
       (filename s : String),
       lookupKey opts "severity_map" = some (PyVal.dict sm) →
       lookupKey (groupsOf m) "severity" = some (PyVal.str s) →
       lookupKey sm s = Option.none →
       pyInt s = Option.none →
       ∃ msg, convert opts bearName m filename =
         Except.error (PyErr.valueError msg)) := by
  constructor
  · intro opts sm bearName m filename s v res hsm hsev hmap hok
    rw [convert_with_map opts (PyVal.dict sm) bearName m filename hsm,
        sevStep_mapped sm (groupsOf m) s (PyVal.int v) hsev hmap] at hok
    cases hIL : intLoop numericKeys (setKey (groupsOf m) "severity"
        (PyVal.int v)) with
    | error e =>
        rw [hIL] at hok
        exact Except.noConfusion hok
    | ok gs2 =>
        rw [hIL] at hok
        dsimp only [Except.bind] at hok
        have hsev2 : lookupKey gs2 "severity" = some (PyVal.int v) := by
          rw [intLoop_preserves numericKeys _ gs2 hIL "severity" (by decide)]
          exact lookup_setKey_self _ _ _
        have hsev3 : lookupKey (originStep bearName gs2) "severity" =
            some (PyVal.int v) := by
          rw [originStep_lookup_ne bearName gs2 "severity" (by decide)]
          exact hsev2
        unfold resultFromValues at hok
        rw [hsev3] at hok
        dsimp only [Option.getD, pyIntOf] at hok
        cases hok
        rfl
  · intro opts sm bearName m filename s hsm hsev hmap hni
    rw [convert_with_map opts (PyVal.dict sm) bearName m filename hsm,
        sevStep_unmapped sm (groupsOf m) s hsev hmap]
    have Hv : ∀ k w, k ∈ numericKeys →
        lookupKey (groupsOf m) k = some w → isStrOrNone w :=
      fun k w _ hw => groupsOf_val m k w hw
    cases hIL : intLoop numericKeys (groupsOf m) with
    | error e =>
        obtain ⟨msg, rfl⟩ :=
          intLoop_error_valueError numericKeys (groupsOf m) (by decide) Hv e
            hIL
        exact ⟨msg, rfl⟩
    | ok gs2 =>
        have hsev2 : lookupKey gs2 "severity" = some (PyVal.str s) := by
          rw [intLoop_preserves numericKeys _ gs2 hIL "severity" (by decide)]
          exact hsev
        have hsev3 : lookupKey (originStep bearName gs2) "severity" =
            some (PyVal.str s) := by
          rw [originStep_lookup_ne bearName gs2 "severity" (by decide)]
          exact hsev2
        refine ⟨"invalid literal for int() with base 10: " ++ pyRepr s, ?_⟩
        dsimp only [Except.bind]
        unfold resultFromValues
        rw [hsev3]
        dsimp only [Option.getD]
        simp only [pyIntOf, hni]
        rfl

theorem severity_map_resolution_witness :
    (convert [("severity_map", PyVal.dict [("error", PyVal.int 2)])] "B"
        ⟨0, 1, [("severity", some "error")]⟩ "f" =
      Except.ok ⟨OriginV.self, PyVal.str "", "f", PyVal.int 2, PyVal.none,
                 PyVal.none, PyVal.none, PyVal.none, Option.none⟩ ∧
     (⟨OriginV.self, PyVal.str "", "f", PyVal.int 2, PyVal.none, PyVal.none,
       PyVal.none, PyVal.none, Option.none⟩ : Result).severity =
       PyVal.int 2) ∧
    (∃ msg, convert [("severity_map", PyVal.dict [("error", PyVal.int 2)])]
        "B" ⟨0, 1, [("severity", some "warning")]⟩ "f" =
      Except.error (PyErr.valueError msg)) :=
  ⟨⟨rfl,
    severity_map_resolution.1 [("severity_map",
        PyVal.dict [("error", PyVal.int 2)])] [("error", PyVal.int 2)] "B"
      ⟨0, 1, [("severity", some "error")]⟩ "f" "error" 2 _ rfl rfl rfl rfl⟩,
   severity_map_resolution.2 [("severity_map",
       PyVal.dict [("error", PyVal.int 2)])] [("error", PyVal.int 2)] "B"
     ⟨0, 1, [("severity", some "warning")]⟩ "f" "warning" rfl rfl rfl
     (by decide)⟩

theorem convertAll_ok_length (opts : List (String × PyVal))
    (bearName : String) (ms : List Match) (filename : String)
    (rs : List Result)
    (h : convertAll opts bearName ms filename = Except.ok rs) :
    rs.length = ms.length := by
  induction ms generalizing rs with
  | nil =>
      simp only [convertAll] at h
      cases h
      rfl
  | cons m rest ih =>
      simp only [convertAll] at h
      cases hc : convert opts bearName m filename with
      | error e =>
          rw [hc] at h
          exact Except.noConfusion h
      | ok r =>
          rw [hc] at h
          cases hca : convertAll opts bearName rest filename with
          | error e =>
              rw [hca] at h
              exact Except.noConfusion h
          | ok rs2 =>
              rw [hca] at h
              cases h
              simp [ih rs2 hca]

theorem convertAll_ok_get (opts : List (String × PyVal)) (bearName : String)
    (ms : List Match) (filename : String) (rs : List Result)
    (h : convertAll opts bearName ms filename = Except.ok rs) :
    ∀ (i : Nat) (hi : i < ms.length) (hj : i < rs.length),
      convert opts bearName (ms.get ⟨i, hi⟩) filename =
        Except.ok (rs.get ⟨i, hj⟩) := by
  induction ms generalizing rs with
  | nil =>
      intro i hi
      cases hi
  | cons m rest ih =>
      intro i hi hj
      simp only [convertAll] at h
      cases hc : convert opts bearName m filename with
      | error e =>
          rw [hc] at h
          exact Except.noConfusion h
      | ok r =>
          rw [hc] at h
          cases hca : convertAll opts bearName rest filename with
          | error e =>
              rw [hca] at h
              exact Except.noConfusion h
          | ok rs2 =>
              rw [hca] at h
              cases h
              cases i with
              | zero => exact hc
              | succ i0 =>
                  exact ih rs2 hca i0 (Nat.lt_of_succ_lt_succ hi)
                    (Nat.lt_of_succ_lt_succ hj)

/-- C5: in pattern mode, when processing succeeds the diagnostic list has
exactly one diagnostic per match of the compiled pattern — same count, the
i-th diagnostic converted from the i-th match — and the matches enumerated
by `finditer` are non-overlapping and ordered left to right. -/
theorem pattern_diagnostics_per_match :
    ∀ (opts : List (String × PyVal)) (r : Regex)
      (bearName out filename : String) (file : List String)
      (rs : List Result),
      lookupKey opts "provides_correction" = some (PyVal.bool false) →
      lookupKey opts "output_regex" = some (PyVal.regex r) →
      processOutput opts bearName out filename file = Except.ok rs →
      rs.length = (r.finditer out).length ∧
      (∀ (i : Nat) (hi : i < (r.finditer out).length) (hj : i < rs.length),
         convert opts bearName ((r.finditer out).get ⟨i, hi⟩) filename =
           Except.ok (rs.get ⟨i, hj⟩)) ∧
      List.Chain' matchOrder (r.finditer out) := by
  intro opts r bearName out filename file rs hpc hreg hok
  unfold processOutput at hok
  rw [hpc] at hok
  dsimp only at hok
  rw [hreg] at hok
  exact ⟨convertAll_ok_length opts bearName (r.finditer out) filename rs hok,
         fun i hi hj =>
           convertAll_ok_get opts bearName (r.finditer out) filename rs hok i
             hi hj,
         r.finditer_chain out⟩

/-- A concrete compiled pattern used to witness the pattern extractor: two
matches in the subject string `"ee"`. -/
def rxSample : Regex :=
  { groupindex := ["severity"],
    finditer := fun s =>
      if s = "ee" then
        [⟨0, 1, [("severity", some "error")]⟩,
         ⟨1, 2, [("severity", some "info")]⟩]
      else [],
    finditer_chain := by
      intro s
      by_cases h : s = "ee" <;>
        simp [h, matchOrder] }

/-- A concrete validated options dictionary for the witness adapter. -/
def optsSample : List (String × PyVal) :=
  [("provides_correction", PyVal.bool false),
   ("output_regex", PyVal.regex rxSample),
   ("severity_map", defaultSeverityMap)]

/-- The diagnostics the witness adapter produces on `"ee"`. -/
def rsSample : List Result :=
  [⟨OriginV.self, PyVal.str "", "f", PyVal.int 2, PyVal.none, PyVal.none,
    PyVal.none, PyVal.none, Option.none⟩,
   ⟨OriginV.self, PyVal.str "", "f", PyVal.int 0, PyVal.none, PyVal.none,
    PyVal.none, PyVal.none, Option.none⟩]

theorem pattern_diagnostics_per_match_witness :
    processOutput optsSample "B" "ee" "f" [] = Except.ok rsSample ∧
    (rsSample.length = (rxSample.finditer "ee").length ∧
     List.Chain' matchOrder (rxSample.finditer "ee")) :=
  ⟨rfl,
   ⟨(pattern_diagnostics_per_match optsSample rxSample "B" "ee" "f" []
       rsSample rfl rfl rfl).1,
    (pattern_diagnostics_per_match optsSample rxSample "B" "ee" "f" []
       rsSample rfl rfl rfl).2.2⟩⟩

/-- C3: the claim says the sealed spec's config-file-suffix field equals the
config suffix string supplied to the builder; on the code the field is the
`use_stderr` boolean instead (source line 146 assigns `use_stderr`), so the
suffix handed to the temporary-file primitive by `_create_config` is never
the supplied string. -/
theorem config_suffix_stores_use_stderr :
    ∀ (compile : String → Regex) (executable : String)
      (use_stdin use_stderr : Bool) (config_suffix : String),
      (Linter compile executable true use_stdin use_stderr config_suffix
          []).map tmpSuffix = Except.ok (some (PyVal.bool use_stderr)) ∧
      (Linter compile executable true use_stdin use_stderr config_suffix
          []).map tmpSuffix ≠ Except.ok (some (PyVal.str config_suffix)) := by
  intro compile executable use_stdin use_stderr config_suffix
  refine ⟨rfl, ?_⟩
  intro hc
  rw [show (Linter compile executable true use_stdin use_stderr config_suffix
        []).map tmpSuffix = Except.ok (some (PyVal.bool use_stderr)) from rfl]
    at hc
  simp at hc

theorem config_suffix_stores_use_stderr_witness :
    (Linter (fun _ => { groupindex := [], finditer := fun _ => [],
                        finditer_chain := fun _ => List.chain'_nil })
        "xlint" true false true ".conf" []).map tmpSuffix =
      Except.ok (some (PyVal.bool true)) ∧
    (Linter (fun _ => { groupindex := [], finditer := fun _ => [],
                        finditer_chain := fun _ => List.chain'_nil })
        "xlint" true false true ".conf" []).map tmpSuffix ≠
      Except.ok (some (PyVal.str ".conf")) :=
  config_suffix_stores_use_stderr
    (fun _ => { groupindex := [], finditer := fun _ => [],
                finditer_chain := fun _ => List.chain'_nil })
    "xlint" false true ".conf"

/-- C8: constructing an adapter with `provides_correction = true` and an
`output_regex` option fails at construction time with a `ValueError` (the
spec's ConfigurationError) whose message names the offending key. -/
theorem correction_with_output_regex_rejected :
    ∀ (compile : String → Regex) (executable : String)
      (use_stdin use_stderr : Bool) (config_suffix : String) (v : PyVal),
      Linter compile executable true use_stdin use_stderr config_suffix
          [("output_regex", v)] =
        Except.error (PyErr.valueError
          ("Invalid keyword argument " ++ pyRepr "output_regex" ++
           " provided.")) := by
  intro compile executable use_stdin use_stderr config_suffix v
  rfl

/-- C7: the diagnostics of a run are a function of the selected output
stream alone (plus the original file); two tool outcomes with the same
selected stream give the same diagnostics, whatever their exit codes and
other stream are — the exit status is never inspected. -/
theorem diagnostics_ignore_exit_status :
    ∀ (options : List (String × PyVal)) (bearName filename : String)
      (file : List String) (er1 er2 : ExecResult),
      grabOutput options er1.stdout er1.stderr =
          grabOutput options er2.stdout er2.stderr →
      runBear options bearName filename file er1 =
        runBear options bearName filename file er2 := by
  intro options bearName filename file er1 er2 h
  unfold runBear
  rw [h]

theorem linter_pattern_nosev (compile : String → Regex) (executable : String)
    (use_stdin use_stderr : Bool) (config_suffix p : String)
    (hsev : (compile p).groupindex.contains "severity" = false) :
    Linter compile executable false use_stdin use_stderr config_suffix
        [("output_regex", PyVal.str p)] =
      Except.ok [("output_regex", PyVal.regex (compile p)),
                 ("executable", PyVal.str executable),
                 ("provides_correction", PyVal.bool false),
                 ("use_stdin", PyVal.bool use_stdin),
                 ("use_stderr", PyVal.bool use_stderr),
                 ("config_suffix", PyVal.bool use_stderr)] := by
  have h2 : "severity" ∉ (compile p).groupindex := by simpa using hsev
  simp [Linter, setKey, lookupKey, hasKey, hsev, h2, superfluousKeys, keysOf,
        baseAllowed]
  rfl

/-- C1: the claim says that for a pattern-mode adapter whose compiled
pattern has no `severity` group, converting any match succeeds with NORMAL
severity.  On the code this fails: the builder installs no severity map in
that case (source lines 182-186), while line 270 subscripts
`options["severity_map"]` unconditionally, so converting any match raises
`KeyError` instead of producing a diagnostic. -/
theorem no_severity_group_conversion_keyerror :
    ∀ (compile : String → Regex) (executable : String)
      (use_stdin use_stderr : Bool) (config_suffix p : String)
      (opts : List (String × PyVal)),
      (compile p).groupindex.contains "severity" = false →
      Linter compile executable false use_stdin use_stderr config_suffix
          [("output_regex", PyVal.str p)] = Except.ok opts →
      ∀ (bearName : String) (m : Match) (filename : String),
        convert opts bearName m filename =
          Except.error (PyErr.keyError "severity_map") := by
  intro compile executable use_stdin use_stderr config_suffix p opts hsev hok
  rw [linter_pattern_nosev compile executable use_stdin use_stderr
        config_suffix p hsev] at hok
  cases hok
  intro bearName m filename
  rfl

theorem no_severity_group_conversion_keyerror_witness :
    ((fun _ => { groupindex := [], finditer := fun _ => [],
                 finditer_chain := fun _ => List.chain'_nil } :
        String → Regex) "pat").groupindex.contains "severity" = false ∧
    convert [("output_regex",
              PyVal.regex { groupindex := [], finditer := fun _ => [],
                            finditer_chain := fun _ => List.chain'_nil }),
             ("executable", PyVal.str "xlint"),
             ("provides_correction", PyVal.bool false),
             ("use_stdin", PyVal.bool false),
             ("use_stderr", PyVal.bool false),
             ("config_suffix", PyVal.bool false)] "XLintBear"
        { start := 0, stop := 2, groupdict := [("message", some "hi")] } "f" =
      Except.error (PyErr.keyError "severity_map") :=
  ⟨rfl,
   no_severity_group_conversion_keyerror
     (fun _ => { groupindex := [], finditer := fun _ => [],
                 finditer_chain := fun _ => List.chain'_nil })
     "xlint" false false "" "pat" _ rfl rfl "XLintBear"
     { start := 0, stop := 2, groupdict := [("message", some "hi")] } "f"⟩

theorem scriptSource_keep (l : String) (ops : List DiffOp) :
    scriptSource (DiffOp.keep l :: ops) = l :: scriptSource ops := rfl

theorem scriptSource_del (l : String) (ops : List DiffOp) :
    scriptSource (DiffOp.del l :: ops) = l :: scriptSource ops := rfl

theorem scriptSource_ins (l : String) (ops : List DiffOp) :
    scriptSource (DiffOp.ins l :: ops) = scriptSource ops := rfl

theorem scriptTarget_keep (l : String) (ops : List DiffOp) :
    scriptTarget (DiffOp.keep l :: ops) = l :: scriptTarget ops := rfl

theorem scriptTarget_del (l : String) (ops : List DiffOp) :
    scriptTarget (DiffOp.del l :: ops) = scriptTarget ops := rfl

theorem scriptTarget_ins (l : String) (ops : List DiffOp) :
    scriptTarget (DiffOp.ins l :: ops) = l :: scriptTarget ops := rfl

theorem insLines_keep (l : String) (ops : List DiffOp) :
    insLines (DiffOp.keep l :: ops) = insLines ops := rfl

theorem insLines_del (l : String) (ops : List DiffOp) :
    insLines (DiffOp.del l :: ops) = insLines ops := rfl

theorem insLines_ins (l : String) (ops : List DiffOp) :
    insLines (DiffOp.ins l :: ops) = l :: insLines ops := rfl

theorem delCountOf_keep (l : String) (ops : List DiffOp) :
    delCountOf (DiffOp.keep l :: ops) = delCountOf ops := by
  simp [delCountOf, List.countP_cons]

theorem delCountOf_del (l : String) (ops : List DiffOp) :
    delCountOf (DiffOp.del l :: ops) = delCountOf ops + 1 := by
  simp [delCountOf, List.countP_cons]

theorem delCountOf_ins (l : String) (ops : List DiffOp) :
    delCountOf (DiffOp.ins l :: ops) = delCountOf ops := by
  simp [delCountOf, List.countP_cons]

theorem scriptSource_append (x y : List DiffOp) :
    scriptSource (x ++ y) = scriptSource x ++ scriptSource y :=
  List.filterMap_append x y _

theorem scriptTarget_append (x y : List DiffOp) :
    scriptTarget (x ++ y) = scriptTarget x ++ scriptTarget y :=
  List.filterMap_append x y _

theorem scriptSource_map_ins (bs : List String) :
    scriptSource (bs.map DiffOp.ins) = [] := by
  induction bs with
  | nil => rfl
  | cons b bs ih => rw [List.map_cons, scriptSource_ins, ih]

theorem scriptTarget_map_ins (bs : List String) :
    scriptTarget (bs.map DiffOp.ins) = bs := by
  induction bs with
  | nil => rfl
  | cons b bs ih => rw [List.map_cons, scriptTarget_ins, ih]

theorem lcsDiff_source :
    ∀ (a b : List String), scriptSource (lcsDiff a b) = a := by
  intro a b
  induction a, b using lcsDiff.induct with
  | case1 bs =>
      simp only [lcsDiff]
      exact scriptSource_map_ins bs
  | case2 a as ih =>
      simp only [lcsDiff]
      show a :: scriptSource (lcsDiff as []) = a :: as
      rw [ih]
  | case3 as b bs ih =>
      simp only [lcsDiff, if_pos rfl]
      show b :: scriptSource (lcsDiff as bs) = b :: as
      rw [ih]
  | case4 a as b bs hab d1 d2 hle ih1 ih2 =>
      simp only [lcsDiff, if_neg hab, if_pos hle]
      show a :: scriptSource (lcsDiff as (b :: bs)) = a :: as
      rw [ih1]
  | case5 a as b bs hab d1 d2 hle ih1 ih2 =>
      simp only [lcsDiff, if_neg hab, if_neg hle]
      show scriptSource (lcsDiff (a :: as) bs) = a :: as
      rw [ih2]

theorem lcsDiff_target :
    ∀ (a b : List String), scriptTarget (lcsDiff a b) = b := by
  intro a b
  induction a, b using lcsDiff.induct with
  | case1 bs =>
      simp only [lcsDiff]
      exact scriptTarget_map_ins bs
  | case2 a as ih =>
      simp only [lcsDiff]
      show scriptTarget (lcsDiff as []) = []
      rw [ih]
  | case3 as b bs ih =>
      simp only [lcsDiff, if_pos rfl]
      show b :: scriptTarget (lcsDiff as bs) = b :: bs
      rw [ih]
  | case4 a as b bs hab d1 d2 hle ih1 ih2 =>
      simp only [lcsDiff, if_neg hab, if_pos hle]
      show scriptTarget (lcsDiff as (b :: bs)) = b :: bs
      rw [ih1]
  | case5 a as b bs hab d1 d2 hle ih1 ih2 =>
      simp only [lcsDiff, if_neg hab, if_neg hle]
      show b :: scriptTarget (lcsDiff (a :: as) bs) = b :: bs
      rw [ih2]

theorem allChange_source_length (ops : List DiffOp)
    (h : ∀ op ∈ ops, isChange op = true) :
    (scriptSource ops).length = delCountOf ops := by
  induction ops with
  | nil => rfl
  | cons op rest ih =>
      have hop := h op (List.mem_cons_self op rest)
      have hrest := ih (fun o ho => h o (List.mem_cons_of_mem op ho))
      cases op with
      | keep l => exact absurd hop (by simp [isChange])
      | del l =>
          rw [scriptSource_del, delCountOf_del, List.length_cons, hrest]
      | ins l =>
          rw [scriptSource_ins, delCountOf_ins]
          exact hrest

theorem allChange_target (ops : List DiffOp)
    (h : ∀ op ∈ ops, isChange op = true) :
    scriptTarget ops = insLines ops := by
  induction ops with
  | nil => rfl
  | cons op rest ih =>
      have hop := h op (List.mem_cons_self op rest)
      have hrest := ih (fun o ho => h o (List.mem_cons_of_mem op ho))
      cases op with
      | keep l => exact absurd hop (by simp [isChange])
      | del l => rw [scriptTarget_del, insLines_del, hrest]
      | ins l => rw [scriptTarget_ins, insLines_ins, hrest]

theorem applyHunks_cons_ge (hs : List Hunk) (pos : Nat) (a : String)
    (xs : List String)
    (hge : ∀ h hs', hs = h :: hs' → pos + 1 ≤ h.start) :
    applyHunks hs pos (a :: xs) = a :: applyHunks hs (pos + 1) xs := by
  cases hs with
  | nil => rfl
  | cons h hs' =>
      have hge' := hge h hs' rfl
      have h1 : h.start - pos = (h.start - (pos + 1)) + 1 := by omega
      have h2 : (h.start - (pos + 1)) + 1 + h.delCount =
          ((h.start - (pos + 1)) + h.delCount) + 1 := by omega
      simp only [applyHunks, h1, h2, List.take_succ_cons, List.drop_succ_cons,
                 List.cons_append]

theorem splitDiff_start_ge :
    ∀ (pos : Nat) (ops : List DiffOp), ∀ h ∈ splitDiff pos ops,
      pos ≤ h.start := by
  intro pos ops
  induction pos, ops using splitDiff.induct with
  | case1 pos =>
      intro h hh
      simp [splitDiff] at hh
  | case2 pos l rest ih =>
      intro h hh
      simp only [splitDiff] at hh
      exact Nat.le_of_succ_le (ih h hh)
  | case3 pos a rest run ih =>
      intro h hh
      simp only [splitDiff] at hh
      rcases List.mem_cons.mp hh with rfl | hh2
      · exact Nat.le_refl pos
      · have := ih h hh2
        omega
  | case4 pos b rest run ih =>
      intro h hh
      simp only [splitDiff] at hh
      rcases List.mem_cons.mp hh with rfl | hh2
      · exact Nat.le_refl pos
      · have := ih h hh2
        omega

theorem dropWhile_head_false {α : Type} (p : α → Bool) (l : List α) (x : α)
    (xs : List α) (h : l.dropWhile p = x :: xs) : p x = false := by
  induction l with
  | nil => exact List.noConfusion h
  | cons a rest ih =>
      by_cases hp : p a
      · rw [List.dropWhile_cons_of_pos hp] at h
        exact ih h
      · rw [List.dropWhile_cons_of_neg hp] at h
        cases h
        simpa using hp

theorem splitDiff_dropWhile_ge (rest : List DiffOp) (pos : Nat) :
    ∀ h ∈ splitDiff pos (rest.dropWhile isChange), pos + 1 ≤ h.start := by
  intro h hh
  cases hd : rest.dropWhile isChange with
  | nil =>
      rw [hd] at hh
      simp [splitDiff] at hh
  | cons op tail =>
      rw [hd] at hh
      have hop : isChange op = false :=
        dropWhile_head_false isChange rest op tail hd
      cases op with
      | keep l =>
          simp only [splitDiff] at hh
          exact splitDiff_start_ge (pos + 1) tail h hh
      | del l => simp [isChange] at hop
      | ins l => simp [isChange] at hop

/-- Modelled from the spec: "pairwise disjoint and ordered by starting
line" (§3): hunk `a` covers only original-file lines strictly before hunk
`b`'s span, and starts strictly earlier. -/
def hunkBefore (a b : Hunk) : Prop :=
  a.start + a.delCount ≤ b.start ∧ a.start < b.start

instance : IsTrans Hunk hunkBefore :=
  ⟨fun a b c hab hbc =>
    ⟨Nat.le_trans hab.1
       (Nat.le_trans (Nat.le_add_right b.start b.delCount) hbc.1),
     Nat.lt_trans hab.2 hbc.2⟩⟩

theorem splitDiff_chain :
    ∀ (pos : Nat) (ops : List DiffOp),
      List.Chain' hunkBefore (splitDiff pos ops) := by
  intro pos ops
  induction pos, ops using splitDiff.induct with
  | case1 pos => simp [splitDiff]
  | case2 pos l rest ih =>
      simp only [splitDiff]
      exact ih
  | case3 pos a rest run ih =>
      simp only [splitDiff]
      rw [List.chain'_cons']
      refine ⟨?_, ih⟩
      intro y hy
      have h1 := splitDiff_dropWhile_ge rest
        (pos + 1 + delCountOf (rest.takeWhile isChange)) y
        (List.mem_of_mem_head? hy)
      constructor
      · show pos + (1 + delCountOf (rest.takeWhile isChange)) ≤ y.start
        omega
      · show pos < y.start
        omega
  | case4 pos b rest run ih =>
      simp only [splitDiff]
      rw [List.chain'_cons']
      refine ⟨?_, ih⟩
      intro y hy
      have h1 := splitDiff_dropWhile_ge rest
        (pos + delCountOf (rest.takeWhile isChange)) y
        (List.mem_of_mem_head? hy)
      constructor
      · show pos + delCountOf (rest.takeWhile isChange) ≤ y.start
        omega
      · show pos < y.start
        omega

theorem applyHunks_splitDiff :
    ∀ (pos : Nat) (ops : List DiffOp),
      applyHunks (splitDiff pos ops) pos (scriptSource ops) =
        scriptTarget ops := by
  intro pos ops
  induction pos, ops using splitDiff.induct with
  | case1 pos =>
      simp only [splitDiff]
      rfl
  | case2 pos l rest ih =>
      simp only [splitDiff, scriptSource_keep, scriptTarget_keep]
      have hge : ∀ h hs', splitDiff (pos + 1) rest = h :: hs' →
          pos + 1 ≤ h.start := by
        intro h hs' heq
        exact splitDiff_start_ge (pos + 1) rest h
          (by rw [heq]; exact List.mem_cons_self h hs')
      rw [applyHunks_cons_ge (splitDiff (pos + 1) rest) pos l
            (scriptSource rest) hge, ih]
  | case3 pos a rest run ih =>
      have hdec : run ++ rest.dropWhile isChange = rest :=
        List.takeWhile_append_dropWhile isChange rest
      have hall : ∀ op ∈ run, isChange op = true :=
        fun op hop => List.mem_takeWhile_imp hop
      have hsrc := scriptSource_append run (rest.dropWhile isChange)
      rw [hdec] at hsrc
      have htgt := scriptTarget_append run (rest.dropWhile isChange)
      rw [hdec] at htgt
      have hlen := allChange_source_length run hall
      have htgtrun := allChange_target run hall
      simp only [splitDiff, scriptSource_del, scriptTarget_del]
      rw [hsrc, htgt, htgtrun]
      simp only [applyHunks, Nat.sub_self, List.take_zero, List.nil_append,
                 Nat.zero_add]
      have hdrop : List.drop (1 + delCountOf run)
          (a :: (scriptSource run ++ scriptSource (rest.dropWhile isChange))) =
          scriptSource (rest.dropWhile isChange) := by
        rw [Nat.add_comm 1 (delCountOf run), List.drop_succ_cons, ← hlen,
            List.drop_left]
      rw [hdrop, ← Nat.add_assoc, ih]
  | case4 pos b rest run ih =>
      have hdec : run ++ rest.dropWhile isChange = rest :=
        List.takeWhile_append_dropWhile isChange rest
      have hall : ∀ op ∈ run, isChange op = true :=
        fun op hop => List.mem_takeWhile_imp hop
      have hsrc := scriptSource_append run (rest.dropWhile isChange)
      rw [hdec] at hsrc
      have htgt := scriptTarget_append run (rest.dropWhile isChange)
      rw [hdec] at htgt
      have hlen := allChange_source_length run hall
      have htgtrun := allChange_target run hall
      simp only [splitDiff, scriptSource_ins, scriptTarget_ins]
      rw [hsrc, htgt, htgtrun]
      simp only [applyHunks, Nat.sub_self, List.take_zero, List.nil_append,
                 Nat.zero_add]
      have hdrop : List.drop (delCountOf run)
          (scriptSource run ++ scriptSource (rest.dropWhile isChange)) =
          scriptSource (rest.dropWhile isChange) := by
        rw [← hlen, List.drop_left]
      rw [hdrop, ih]
      simp [List.cons_append]

theorem diffResults_hunks (options : List (String × PyVal)) (output : String)
    (file : List String) (filename : String) :
    (diffResults options output file filename).filterMap Result.diffs =
      splitDiff 1 (lcsDiff file (splitLinesKeep output)) := by
  unfold diffResults
  rw [List.filterMap_map]
  show List.filterMap some (splitDiff 1 (lcsDiff file (splitLinesKeep output)))
      = _
  exact List.filterMap_some _

/-- C4: for every diff-mode invocation, sequentially applying the patches
attached to the emitted diagnostics, in emission (= range) order, to the
original file content reproduces the corrected output exactly (round-trip
law). -/
theorem diff_round_trip :
    ∀ (options : List (String × PyVal)) (filename : String)
      (file : List String) (output : String),
      applyHunks
        ((diffResults options output file filename).filterMap Result.diffs)
        1 file = splitLinesKeep output := by
  intro options filename file output
  rw [diffResults_hunks]
  nth_rewrite 2 [show file =
      scriptSource (lcsDiff file (splitLinesKeep output)) from
      (lcsDiff_source file (splitLinesKeep output)).symm]
  rw [applyHunks_splitDiff]
  exact lcsDiff_target file (splitLinesKeep output)

/-- C6: the hunks attached to a diff-mode invocation's diagnostics are
pairwise disjoint — each hunk's original-line span lies strictly before the
next one's — and their start lines are strictly increasing in emission
order. -/
theorem diff_hunks_disjoint_ordered :
    ∀ (options : List (String × PyVal)) (filename : String)
      (file : List String) (output : String),
      ((diffResults options output file filename).filterMap
          Result.diffs).Pairwise hunkBefore := by
  intro options filename file output
  rw [diffResults_hunks]
  exact List.chain'_iff_pairwise.mp
    (splitDiff_chain 1 (lcsDiff file (splitLinesKeep output)))

theorem diagnostics_ignore_exit_status_witness :
    grabOutput [] "out" "erra" = grabOutput [] "out" "errb" ∧
    runBear [] "B" "f" [] { stdout := "out", stderr := "erra", exitcode := 0 } =
      runBear [] "B" "f" [] { stdout := "out", stderr := "errb", exitcode := 123 } :=
  ⟨rfl, diagnostics_ignore_exit_status [] "B" "f" []
    { stdout := "out", stderr := "erra", exitcode := 0 }
    { stdout := "out", stderr := "errb", exitcode := 123 } rfl⟩

end Coala
